import Mathlib

/-!
# Verification of the easegress filter core

Shallow embedding, in Lean 4, of the filters in this repository:

* `pkg/filters/apiaggregator/apiaggregator.go` — the `APIAggregator` filter
  (`Handle`, `copyHTTPBody2Map`, `formatResponse`, `Inherit`);
* `pkg/filters/certextractor/certextractor.go` — the `CertExtractor` filter
  (`handle`, `Init`'s header-key computation, `Inherit`);
* `pkg/protocols/httpprot/fallback/fallback.go` — the `Fallback` responder
  (`New`, `Fallback`).

Modelling conventions:

* Go byte slices are `List Nat`; an `io.Reader` is a `ByteStream`: the bytes it
  yields before its terminal condition, and whether that terminal condition
  is a clean `io.EOF` or some other error.
* `io.CopyN` is `copyN`, derived from its documented contract: it copies
  through a `LimitReader`, so when the source holds at least `n` bytes it
  returns `(n, nil)`; when the source is exhausted first it returns the
  copied count together with `io.EOF` (clean end) or the source's error;
  for `n ≤ 0` it returns `(0, nil)`.
* Go's `int64` / `int16` are `Int` (no arithmetic in the modelled code can
  overflow at the sizes the claims use); Go's `%` on integers is truncated
  division, i.e. `Int.tmod`.
* A Go `map` is an insertion-ordered association list (`mapSet` is map
  assignment: replace in place or append).  Go does not specify map
  iteration order, so every function of the source that ranges over a map
  takes the enumeration it happens to observe as an explicit argument
  (`iter` below): any permutation of the entries is a schedule the Go
  runtime may produce.
* The JSON library (`jsoniter`) is an external collaborator: `unmarshal`
  is passed in as a function from bytes to the decoded top-level object
  (`none` when the bytes do not decode as a JSON object).  Decoded object
  values are opaque (`Nat` tags).  Unmarshalling into an already populated
  `map[string]interface{}` overwrites the top-level keys present in the
  document and keeps the rest, which is `foldl mapSet`.  Marshalling of the
  structured result is kept structured (`AggPayload`) rather than
  re-serialised, so the always-successful marshal branch is total here.
-/

/-- Terminal condition of an `io.Reader`: clean `io.EOF`, or any other
read error. -/
inductive RdErr
  | eof
  | other
deriving DecidableEq, Repr

/-- An `io.Reader` together with the bytes it will yield: it produces
`content` and then reports `term`. -/
structure ByteStream where
  content : List Nat
  term : RdErr
deriving DecidableEq, Repr

/-- `io.CopyN(dst, src, n)`: copies up to `n` bytes.  Derived from the
`io.CopyN` contract (`Copy` over a `LimitReader`): `n ≤ 0` copies nothing
with a nil error; a source holding at least `n` bytes yields `(n, nil)`;
a source exhausted earlier yields its full length and its terminal
condition (`some .eof` is `io.EOF`, `some .other` any other error,
`none` is a nil error). -/
def copyN (src : ByteStream) (n : Int) : Int × Option RdErr :=
  if n ≤ 0 then (0, none)
  else if (src.content.length : Int) ≥ n then (n, none)
  else ((src.content.length : Int), some src.term)

/-- Go map assignment `m[k] = v` on an insertion-ordered association
list: replace the binding in place when the key is present, append
otherwise. -/
def mapSet {β : Type} : List (String × β) → String → β → List (String × β)
  | [], k, v => [(k, v)]
  | (k', v') :: rest, k, v =>
    if k' = k then (k, v) :: rest else (k', v') :: mapSet rest k v

/-- Lookup in an association list (Go map read). -/
def mapGet {β : Type} : List (String × β) → String → Option β
  | [], _ => none
  | (k', v') :: rest, k => if k' = k then some v' else mapGet rest k

namespace apiaggregator

/-- `pkg/filters/apiaggregator`: one sub-target (`Pipeline`).  Only the
pipeline `Name` drives the logic under verification; `Method`, `Path`,
`Header` and `DisableBody` only shape the derived request handed to the
sub-pipeline, which is abstracted by the `run` parameter of `Handle`. -/
structure Pipeline where
  name : String
deriving DecidableEq, Repr

/-- `apiaggregator.Spec` (the fields `Handle` reads).  `Timeout` only
bounds the derived request's context, abstracted by `run`. -/
structure Spec where
  maxBodyBytes : Int
  partialSucceed : Bool
  mergeResponse : Bool
  pipelines : List Pipeline
deriving DecidableEq, Repr

/-- Lower bound of the jsonschema tag on `Spec.MaxBodyBytes`
(`minimum=0`). -/
def Spec.maxBodyBytesSchemaMinimum : Int := 0

/-- Upper bound of the jsonschema tag on `Spec.MaxBodyBytes`
(`maximum=102400`), the value the schema layer validates at load time. -/
def Spec.maxBodyBytesSchemaMaximum : Int := 102400

/-- A sub-pipeline's recorded response: its status code and its payload
(`none` when `Payload().NewReader()` is nil, i.e. no body). -/
structure SubResponse where
  statusCode : Int
  body : Option ByteStream
deriving DecidableEq, Repr

/-- Outcome of one fan-out worker's interaction with the traffic
controller: `GetHTTPPipeline` misses (`notFound`), or the resolved
pipeline's chain ran against the derived request and recorded `rsp`. -/
inductive PipelineRun
  | notFound
  | ran (rsp : SubResponse)
deriving DecidableEq, Repr

/-- Body of the worker goroutine in `Handle`: a missing pipeline leaves
the slot empty; otherwise the recorded response is stored in the slot
only when its status code is exactly 200 (`http.StatusOK`). -/
def workerSlot : PipelineRun → Option SubResponse
  | .notFound => none
  | .ran rsp => if rsp.statusCode = 200 then some rsp else none

/-- The response-slot array after the `wg.Wait()` barrier: slot `i` holds
what worker `i` stored for pipeline `i`.  `run i name` abstracts worker
`i`'s lookup-and-execute of the pipeline called `name`. -/
def handleSlots (spec : Spec) (run : Nat → String → PipelineRun) :
    List (Option SubResponse) :=
  spec.pipelines.enum.map fun ip => workerSlot (run ip.1 ip.2.name)

/-- The `data` map of `Handle`: sub-target name to collected body bytes. -/
abbrev GoMap := List (String × List Nat)

/-- An early-return failure of `Handle`: the status code it sets, and the
`X-EG-Aggregator` header value when one is set. -/
structure AggFail where
  statusCode : Int
  aggHeader : Option String
deriving DecidableEq, Repr

/-- `APIAggregator.copyHTTPBody2Map`, the read part: copy the response
body through `io.CopyN(respBody, body, MaxBodyBytes)`; report 507
(`http.StatusInsufficientStorage`) when more than `MaxBodyBytes` bytes
were written, 500 (`http.StatusInternalServerError`) when the copy ended
with anything other than `io.EOF`, and success (`none`) otherwise. -/
def copyHTTPBody2Map (maxBodyBytes : Int) (body : ByteStream) : Option Int :=
  let wr := copyN body maxBodyBytes
  if wr.1 > maxBodyBytes then some 507
  else if wr.2 ≠ some .eof then some 500
  else none

/-- The collection loop of `Handle` over the response slots, in slot
(declaration) order: an empty slot fails the aggregation with 503 and the
`failed-in-<name>` header unless `PartialSucceed`; a filled slot with a
body reader goes through `copyHTTPBody2Map`, and on success its bytes are
stored in `data` under the sub-target name. -/
def collectLoop (spec : Spec) :
    List (String × Option SubResponse) → GoMap → Except AggFail GoMap
  | [], data => .ok data
  | (name, slot) :: rest, data =>
    match slot with
    | none =>
      if !spec.partialSucceed then
        .error ⟨503, some ("failed-in-" ++ name)⟩
      else
        collectLoop spec rest data
    | some rsp =>
      match rsp.body with
      | none => collectLoop spec rest data
      | some b =>
        match copyHTTPBody2Map spec.maxBodyBytes b with
        | some status => .error ⟨status, none⟩
        | none => collectLoop spec rest (mapSet data name b.content)

/-- A decoded top-level JSON object: its keys with opaque value tags. -/
abbrev JObj := List (String × Nat)

/-- Unmarshalling a document into a fresh `map[string]interface{}`:
the document's top-level pairs written into an empty Go map. -/
def goMapOf (pairs : JObj) : JObj :=
  pairs.foldl (fun m kv => mapSet m kv.1 kv.2) []

/-- `context.EGStatusBadResponse`.  Modelled from the spec: the `context`
package is not under `src/`; the spec calls it "a distinguished
non-standard 'bad response' status code", so it is an arbitrary fixed
non-standard code here (no claim depends on its numeric value). -/
def EGStatusBadResponse : Int := 994

/-- What `Handle` leaves on the outbound response: payload untouched, or
replaced by the marshalled merged object / array of objects. -/
inductive AggPayload
  | unchanged
  | objOut (o : JObj)
  | arrOut (l : List JObj)
deriving DecidableEq, Repr

/-- The observable outcome of `Handle`: the returned result string, the
status code it set (`none` when untouched), the `X-EG-Aggregator` header
value (`none` when untouched), and the outbound payload. -/
structure HandleOut where
  result : String
  statusCode : Option Int
  aggHeader : Option String
  payload : AggPayload
deriving DecidableEq, Repr

/-- Merge-mode loop of `formatResponse`: each body is unmarshalled into
the one shared accumulator map, overwriting the top-level keys it
mentions; the first body that does not decode aborts. -/
def mergeLoop (unmarshal : List Nat → Option JObj) :
    List (String × List Nat) → JObj → Option JObj
  | [], acc => some acc
  | (_, bs) :: rest, acc =>
    match unmarshal bs with
    | none => none
    | some pairs =>
      mergeLoop unmarshal rest (pairs.foldl (fun m kv => mapSet m kv.1 kv.2) acc)

/-- Array-mode loop of `formatResponse`: each body is unmarshalled into
its own fresh object and appended; the first body that does not decode
aborts. -/
def arrayLoop (unmarshal : List Nat → Option JObj) :
    List (String × List Nat) → Option (List JObj)
  | [] => some []
  | (_, bs) :: rest =>
    match unmarshal bs with
    | none => none
    | some pairs => (arrayLoop unmarshal rest).map (goMapOf pairs :: ·)

/-- `APIAggregator.formatResponse`.  `entries` is the enumeration of the
`data` map that the `for _, resp := range data` loop observes (Go leaves
map iteration order unspecified).  A decode failure sets
`context.EGStatusBadResponse` and fails; success replaces the payload.
The marshal of the structured result is kept structured, so its error
branch (500) is not reachable in the model. -/
def formatResponse (mergeResponse : Bool) (unmarshal : List Nat → Option JObj)
    (entries : List (String × List Nat)) : HandleOut :=
  if mergeResponse then
    match mergeLoop unmarshal entries [] with
    | none => ⟨"failed", some EGStatusBadResponse, none, .unchanged⟩
    | some o => ⟨"", none, none, .objOut o⟩
  else
    match arrayLoop unmarshal entries with
    | none => ⟨"failed", some EGStatusBadResponse, none, .unchanged⟩
    | some l => ⟨"", none, none, .arrOut l⟩

/-- Step 1 of `Handle`: when `MaxBodyBytes > 0`, read the inbound body
through `io.CopyN(buff, reader, MaxBodyBytes+1)`; more than
`MaxBodyBytes` bytes written is 413 (`http.StatusRequestEntityTooLarge`),
a copy ending with anything other than `io.EOF` is 400
(`http.StatusBadRequest`).  Returns the failure status, or `none` on
success. -/
def inboundRead (maxBodyBytes : Int) (reqBody : ByteStream) : Option Int :=
  if maxBodyBytes > 0 then
    let wr := copyN reqBody (maxBodyBytes + 1)
    if wr.1 > maxBodyBytes then some 413
    else if wr.2 ≠ some .eof then some 400
    else none
  else none

/-- `APIAggregator.Handle`.  `reqBody` is the inbound body reader;
`run i name` is worker `i`'s resolution and execution of pipeline `name`
(the derived request construction, which cannot fail for the well-formed
requests the context hands in, is folded into it); `unmarshal` is the
JSON decoder; `iter` is the enumeration the runtime happens to use for
the `data` map (any permutation of its entries). -/
def Handle (spec : Spec) (reqBody : ByteStream)
    (run : Nat → String → PipelineRun)
    (unmarshal : List Nat → Option JObj)
    (iter : GoMap → GoMap) : HandleOut :=
  match inboundRead spec.maxBodyBytes reqBody with
  | some status => ⟨"failed", some status, none, .unchanged⟩
  | none =>
    let slots := handleSlots spec run
    match collectLoop spec (List.zip (spec.pipelines.map (·.name)) slots) [] with
    | .error f => ⟨"failed", some f.statusCode, f.aggHeader, .unchanged⟩
    | .ok data => formatResponse spec.mergeResponse unmarshal (iter data)

end apiaggregator

namespace certextractor

/-- `crypto/x509/pkix.Name`: the fields `CertExtractor.handle` can pick
from.  List-valued fields are multi-valued; `SerialNumber` and
`CommonName` are single strings. -/
structure PkixName where
  country : List String := []
  organization : List String := []
  organizationalUnit : List String := []
  locality : List String := []
  province : List String := []
  streetAddress : List String := []
  postalCode : List String := []
  serialNumber : String := ""
  commonName : String := ""
deriving DecidableEq, Repr

/-- An `x509.Certificate`, reduced to the two `pkix.Name`s the filter
reads. -/
structure Certificate where
  subject : PkixName := {}
  issuer : PkixName := {}
deriving DecidableEq, Repr

/-- `certextractor.Spec`.  `CertIndex` is an `int16` in Go; no value in
range can overflow the `Int` arithmetic below. -/
structure Spec where
  certIndex : Int
  target : String
  field : String
  headerKey : String
deriving DecidableEq, Repr

/-- The header-key computation of `CertExtractor.Init`: the
`tls-<target>-<field>` default, overridden by a non-empty
`spec.HeaderKey`. -/
def initHeaderKey (spec : Spec) : String :=
  let hk := "tls-" ++ spec.target ++ "-" ++ spec.field
  if spec.headerKey ≠ "" then spec.headerKey else hk

/-- The `switch ce.spec.Field` of `CertExtractor.handle`: the values
extracted from the chosen `pkix.Name`.  List fields are taken as they
are; `SerialNumber` and `CommonName` are appended to the nil `result`
slice (so they yield a one-element list even when empty); an
unrecognised field leaves `result` nil. -/
def fieldValues (target : PkixName) (field : String) : List String :=
  match field with
  | "Country" => target.country
  | "Organization" => target.organization
  | "OrganizationalUnit" => target.organizationalUnit
  | "Locality" => target.locality
  | "Province" => target.province
  | "StreetAddress" => target.streetAddress
  | "PostalCode" => target.postalCode
  | "SerialNumber" => [target.serialNumber]
  | "CommonName" => [target.commonName]
  | _ => []

/-- The certificate index arithmetic of `CertExtractor.handle` for a
chain of `n` certificates (Go `%` on integers is truncated division,
`Int.tmod`): `relativeIndex := certIndex % n; index := (n +
relativeIndex) % n`. -/
def certSelectedIndex (certIndex : Int) (n : Int) : Int :=
  let relativeIndex := Int.tmod certIndex n
  Int.tmod (n + relativeIndex) n

/-- `CertExtractor.handle`: no TLS state or no peer certificate is a
no-op; otherwise select one certificate by `certSelectedIndex`, read the
configured field from its subject or issuer name, and `Header().Add`
each non-empty value under `headerKey`.  Returns the result string
together with the request headers after the call (`Add` appends). -/
def handle (spec : Spec) (headerKey : String)
    (tls : Option (List Certificate)) (reqHeaders : List (String × String)) :
    String × List (String × String) :=
  match tls with
  | none => ("", reqHeaders)
  | some certs =>
    if certs.length < 1 then ("", reqHeaders)
    else
      let n : Int := certs.length
      let index := certSelectedIndex spec.certIndex n
      let cert := certs.getD index.toNat {}
      let target := if spec.target = "subject" then cert.subject else cert.issuer
      let result := fieldValues target spec.field
      ("", result.foldl
        (fun hs res => if res ≠ "" then hs ++ [(headerKey, res)] else hs)
        reqHeaders)

end certextractor

namespace fallback

/-- `fallback.Spec`: the mock response configuration.  `MockHeaders` is a
Go map: an association list whose keys are distinct; header keys are
taken as already canonical.  `MockCode` is validated as an HTTP code by
the schema layer. -/
structure Spec where
  mockCode : Int
  mockHeaders : List (String × String)
  mockBody : String
deriving DecidableEq, Repr

/-- `fallback.Fallback`: the filter with its precomputed mock body and
`strconv.Itoa(len(mockBody))`.  Go `len` on a string counts bytes, hence
`utf8ByteSize`. -/
structure Fallback where
  spec : Spec
  mockBody : String
  bodyLength : String
deriving DecidableEq, Repr

/-- `fallback.New`: precompute the mock body and its encoded length. -/
def New (spec : Spec) : Fallback :=
  { spec := spec
    mockBody := spec.mockBody
    bodyLength := toString spec.mockBody.utf8ByteSize }

/-- `httpprot.KeyContentLength` (the `httpprot` package is not under
`src/`; this is the canonical `Content-Length` header key it names). -/
def KeyContentLength : String := "Content-Length"

/-- The mutable response `Fallback` writes into: status code, header map
(`Set` semantics via `mapSet`), payload bytes. -/
structure FResponse where
  statusCode : Int
  headers : List (String × String)
  payload : String
deriving DecidableEq, Repr

/-- `Fallback.Fallback(w)`: set the status code to the mock code, `Set`
the content-length header to the precomputed length, `Set` every mock
header (the `range` over the Go map touches each of its distinct keys
exactly once, so the enumeration order cannot change the resulting header
map), and replace the payload with the mock body. -/
def Fallback.fallback (f : Fallback) (w : FResponse) : FResponse :=
  let w := { w with statusCode := f.spec.mockCode }
  let w := { w with headers := mapSet w.headers KeyContentLength f.bodyLength }
  let w := f.spec.mockHeaders.foldl
    (fun acc kv => { acc with headers := mapSet acc.headers kv.1 kv.2 }) w
  { w with payload := f.mockBody }

end fallback

/-- A lifecycle event observable on a filter generation: `Close` of the
previous generation (identified by a generation id) or `Init` with the
new spec. -/
inductive LifecycleEvent (σ : Type)
  | closePrev (gen : Nat)
  | initNew (s : σ)
deriving DecidableEq, Repr

/-- `APIAggregator.Inherit(spec, previousGeneration)` as the sequence of
lifecycle calls it performs: `previousGeneration.Close()`, then
`aa.Init(spec)`. -/
def apiaggregator.Inherit (spec : apiaggregator.Spec) (prevGen : Nat) :
    List (LifecycleEvent apiaggregator.Spec) :=
  [.closePrev prevGen, .initNew spec]

/-- `CertExtractor.Inherit(spec, previousGeneration)` as the sequence of
lifecycle calls it performs: `previousGeneration.Close()`, then
`ce.Init(spec)`. -/
def certextractor.Inherit (spec : certextractor.Spec) (prevGen : Nat) :
    List (LifecycleEvent certextractor.Spec) :=
  [.closePrev prevGen, .initNew spec]

/-- A `Handle` run used by several concrete evaluations: both sub-targets
answer 200, pipeline `"a"` with body byte `1`, any other with body byte
`2`. -/
def exRunAB : Nat → String → apiaggregator.PipelineRun := fun _ name =>
  if name = "a" then .ran ⟨200, some ⟨[1], .eof⟩⟩
  else .ran ⟨200, some ⟨[2], .eof⟩⟩

/-- A JSON decoder for the bodies of `exRunAB`: `[1]` is the document
`{"x":1}`, `[2]` is `{"y":2}`; everything else is not a JSON object. -/
def exUnmarshalAB : List Nat → Option apiaggregator.JObj := fun bs =>
  if bs = [1] then some [("x", 1)]
  else if bs = [2] then some [("y", 2)]
  else none

/-- The two-sub-target spec `{a, b}` in array mode used by the C1
evaluation. -/
def exSpecAB : apiaggregator.Spec :=
  { maxBodyBytes := 100
    partialSucceed := false
    mergeResponse := false
    pipelines := [{ name := "a" }, { name := "b" }] }

/-- C1: the claim says the array-mode output order equals sub-target
declaration order, independent of map iteration order.  In the code,
`formatResponse` ranges over the `data` Go map, whose iteration order is
unspecified: enumerating the same two collected bodies in the two
possible orders produces two different output arrays, and the reversed
enumeration — a legal Go map iteration order — yields the array in the
opposite of declaration order.  The output therefore does depend on map
iteration order, contradicting the claim. -/
theorem claim_C1_array_order_follows_map_iteration :
    apiaggregator.Handle exSpecAB ⟨[], .eof⟩ exRunAB exUnmarshalAB id
        = ⟨"", none, none, .arrOut [[("x", 1)], [("y", 2)]]⟩
      ∧ apiaggregator.Handle exSpecAB ⟨[], .eof⟩ exRunAB exUnmarshalAB List.reverse
        = ⟨"", none, none, .arrOut [[("y", 2)], [("x", 1)]]⟩
      ∧ apiaggregator.Handle exSpecAB ⟨[], .eof⟩ exRunAB exUnmarshalAB id
        ≠ apiaggregator.Handle exSpecAB ⟨[], .eof⟩ exRunAB exUnmarshalAB List.reverse := by
  refine ⟨by decide, by decide, by decide⟩

/-- C2: the inbound boundary behaves as claimed (`maxBodyBytes` bytes
succeed, `maxBodyBytes+1` give 413, a non-EOF truncated read gives 400),
but the claimed symmetry for sub-target response bodies fails:
`copyHTTPBody2Map` calls `io.CopyN` with `MaxBodyBytes` instead of
`MaxBodyBytes+1`, so a response body of exactly `maxBodyBytes` bytes is
copied with a nil (non-EOF) error and fails with 500, a body of
`maxBodyBytes+1` bytes also fails with 500 rather than 507, and the 507
branch is unreachable for every schema-valid configuration. -/
theorem claim_C2_sub_response_read_asymmetric :
    apiaggregator.inboundRead 10 ⟨List.replicate 10 1, .eof⟩ = none
      ∧ apiaggregator.inboundRead 10 ⟨List.replicate 11 1, .eof⟩ = some 413
      ∧ apiaggregator.inboundRead 10 ⟨List.replicate 5 1, .other⟩ = some 400
      ∧ apiaggregator.copyHTTPBody2Map 10 ⟨List.replicate 10 1, .eof⟩ = some 500
      ∧ apiaggregator.copyHTTPBody2Map 10 ⟨List.replicate 11 1, .eof⟩ = some 500
      ∧ apiaggregator.copyHTTPBody2Map 10 ⟨List.replicate 5 1, .other⟩ = some 500
      ∧ ∀ (max : Nat) (b : ByteStream),
          apiaggregator.copyHTTPBody2Map (max : Int) b ≠ some 507 := by
  refine ⟨by decide, by decide, by decide, by decide, by decide, by decide, ?_⟩
  intro max b h
  unfold apiaggregator.copyHTTPBody2Map copyN at h
  by_cases h0 : (max : Int) ≤ 0
  · simp only [h0, if_true] at h
    split_ifs at h with h1
    · omega
    · exact Option.noConfusion h (fun h2 => by omega)
  · simp only [h0, if_false] at h
    by_cases h1 : (b.content.length : Int) ≥ (max : Int)
    · simp only [h1, if_true] at h
      split_ifs at h with h2
      · omega
      · exact Option.noConfusion h (fun h2 => by omega)
    · simp only [h1, if_false] at h
      split_ifs at h with h2
      · omega
      · exact Option.noConfusion h (fun h3 => by omega)

/-- C3: the jsonschema tag on `Spec.MaxBodyBytes` caps it at 102400
bytes (100KB), strictly below the 10485760 (10MB) the claim states; and
`maxBodyBytes = 0` does not mean "no body is read": step 1 skips the
inbound body (no 400/413 even for an oversized, erroring inbound
stream), but `copyHTTPBody2Map` still runs `io.CopyN(…, 0)` on each
sub-target response body, gets a nil error, and fails the whole
aggregation with 500 — here even for an empty response body. -/
theorem claim_C3_maxBodyBytes_zero_still_fails :
    apiaggregator.Spec.maxBodyBytesSchemaMaximum = 102400
      ∧ apiaggregator.Spec.maxBodyBytesSchemaMaximum < 10485760
      ∧ apiaggregator.Handle
          { maxBodyBytes := 0
            partialSucceed := true
            mergeResponse := false
            pipelines := [{ name := "a" }] }
          ⟨List.replicate 999 7, .other⟩
          (fun _ _ => .ran ⟨200, some ⟨[], .eof⟩⟩)
          (fun _ => some [])
          id
        = ⟨"failed", some 500, none, .unchanged⟩ := by
  refine ⟨by decide, by decide, by decide⟩

/-- C6: for both filter kinds, `Inherit(newSpec, previous)` performs
exactly one `Close` of the previous generation, and performs it strictly
before the `Init` of the new generation with `newSpec`. -/
theorem claim_C6_inherit_closes_prev_before_init :
    (∀ (s : apiaggregator.Spec) (p : Nat),
        (apiaggregator.Inherit s p).count (.closePrev p) = 1
          ∧ (apiaggregator.Inherit s p).indexOf (.closePrev p)
              < (apiaggregator.Inherit s p).indexOf (.initNew s))
      ∧ ∀ (s : certextractor.Spec) (p : Nat),
          (certextractor.Inherit s p).count (.closePrev p) = 1
            ∧ (certextractor.Inherit s p).indexOf (.closePrev p)
                < (certextractor.Inherit s p).indexOf (.initNew s) := by
  constructor
  · intro s p
    constructor
    · simp [apiaggregator.Inherit, List.count_cons]
    · simp [apiaggregator.Inherit, List.indexOf, List.findIdx_cons, cond_eq_if, beq_iff_eq]
  · intro s p
    constructor
    · simp [certextractor.Inherit, List.count_cons]
    · simp [certextractor.Inherit, List.indexOf, List.findIdx_cons, cond_eq_if, beq_iff_eq]

/-- C5: a worker's slot is filled with a sub-response exactly when its
pipeline resolved and ran with status exactly 200; an unresolvable
pipeline name leaves the slot empty; and the fan-out never shrinks or
aborts the slot array (one slot per sub-target), with slot `i` depending
only on worker `i`'s own run against pipeline `i` (siblings are
unaffected). -/
theorem claim_C5_worker_stores_iff_status_200 :
    (∀ (ru : apiaggregator.PipelineRun) (rsp : apiaggregator.SubResponse),
        apiaggregator.workerSlot ru = some rsp
          ↔ ru = .ran rsp ∧ rsp.statusCode = 200)
      ∧ apiaggregator.workerSlot .notFound = none
      ∧ (∀ (spec : apiaggregator.Spec)
          (run : Nat → String → apiaggregator.PipelineRun),
          (apiaggregator.handleSlots spec run).length = spec.pipelines.length)
      ∧ (∀ (spec : apiaggregator.Spec)
          (run : Nat → String → apiaggregator.PipelineRun) (i : Nat),
          (apiaggregator.handleSlots spec run).get? i
            = (spec.pipelines.get? i).map
                fun p => apiaggregator.workerSlot (run i p.name)) := by
  refine ⟨?_, rfl, ?_, ?_⟩
  · intro ru rsp
    cases ru with
    | notFound => simp [apiaggregator.workerSlot]
    | ran r =>
      simp only [apiaggregator.workerSlot, apiaggregator.PipelineRun.ran.injEq]
      split_ifs with h
      · simp only [Option.some.injEq]
        constructor
        · intro he
          exact ⟨he, he ▸ h⟩
        · intro he
          exact he.1
      · simp only [false_iff, not_and]
        intro he hs
        · exact absurd (he ▸ hs) h
  · intro spec run
    simp [apiaggregator.handleSlots, List.enum_length]
  · intro spec run i
    simp only [apiaggregator.handleSlots, List.get?_map, List.get?_enum,
      Option.map_map]
    rfl

/-- Three peer certificates with distinguishable subject common names,
used to evaluate the certificate index resolution. -/
def exCertsC7 : List certextractor.Certificate :=
  [{ subject := { commonName := "c0" } },
   { subject := { commonName := "c1" } },
   { subject := { commonName := "c2" } }]

/-- C7 counterexample: the claim says that with 3 peer certificates
`certIndex = -4` selects the first certificate (wrap).  In the code,
`-4 % 3 = -1` (Go's `%` truncates), so `index = (3 + -1) % 3 = 2`: the
extractor picks the **last** certificate and emits its common name
`"c2"`, not the first one's `"c0"`. -/
theorem claim_C7_counterexample :
    certextractor.handle ⟨-4, "subject", "CommonName", "k"⟩ "k"
          (some exCertsC7) []
        = ("", [("k", "c2")])
      ∧ certextractor.handle ⟨-4, "subject", "CommonName", "k"⟩ "k"
          (some exCertsC7) []
        ≠ ("", [("k", "c0")]) := by
  refine ⟨by decide, by decide⟩

/-- Values appended by `CertExtractor.handle`'s final loop are either
pre-existing header pairs or non-empty extracted values. -/
theorem certextractor.mem_addValues_foldl (hk : String) :
    ∀ (vals : List String) (hs : List (String × String))
      (pair : String × String),
      pair ∈ vals.foldl
          (fun hs res => if res ≠ "" then hs ++ [(hk, res)] else hs) hs →
      pair ∈ hs ∨ pair.2 ≠ "" := by
  intro vals
  induction vals with
  | nil =>
    intro hs pair h
    exact Or.inl h
  | cons v vs ih =>
    intro hs pair h
    simp only [List.foldl_cons] at h
    rcases ih _ pair h with h' | h'
    · by_cases hv : v ≠ ""
      · rw [if_pos hv] at h'
        rcases List.mem_append.mp h' with h'' | h''
        · exact Or.inl h''
        · right
          simp only [List.mem_singleton] at h''
          subst h''
          exact hv
      · rw [if_neg hv] at h'
        exact Or.inl h'
    · exact Or.inr h'

/-- C7 (amended): certificate selection is by signed index taken with
Go's truncated `%`, folded into `[0, n)`: with 3 certificates, index `0`
selects the first, `-1` the last, `3` the first (wrap) and `-4` the
**last** (wrap, since `-4 ≡ -1 (mod 3)`); a selected field whose value
is the empty string never produces a header entry; and `handle` always
returns the empty (success) result. -/
theorem claim_C7_cert_index_resolution :
    (certextractor.handle ⟨0, "subject", "CommonName", "k"⟩ "k"
          (some exCertsC7) [] = ("", [("k", "c0")])
        ∧ certextractor.handle ⟨-1, "subject", "CommonName", "k"⟩ "k"
          (some exCertsC7) [] = ("", [("k", "c2")])
        ∧ certextractor.handle ⟨3, "subject", "CommonName", "k"⟩ "k"
          (some exCertsC7) [] = ("", [("k", "c0")])
        ∧ certextractor.handle ⟨-4, "subject", "CommonName", "k"⟩ "k"
          (some exCertsC7) [] = ("", [("k", "c2")]))
      ∧ (∀ (spec : certextractor.Spec) (hk : String)
          (tls : Option (List certextractor.Certificate))
          (hdrs : List (String × String)),
          (certextractor.handle spec hk tls hdrs).1 = "")
      ∧ (∀ (spec : certextractor.Spec) (hk : String)
          (tls : Option (List certextractor.Certificate))
          (hdrs : List (String × String)) (pair : String × String),
          pair ∈ (certextractor.handle spec hk tls hdrs).2 →
          pair ∈ hdrs ∨ pair.2 ≠ "") := by
  refine ⟨⟨by decide, by decide, by decide, by decide⟩, ?_, ?_⟩
  · intro spec hk tls hdrs
    cases tls with
    | none => rfl
    | some certs =>
      simp only [certextractor.handle]
      split_ifs <;> rfl
  · intro spec hk tls hdrs pair h
    cases tls with
    | none => exact Or.inl h
    | some certs =>
      simp only [certextractor.handle] at h
      split_ifs at h with hl
      · exact Or.inl h
      all_goals exact certextractor.mem_addValues_foldl hk _ _ pair h

/-- C7 witness: the amended theorem applied at `certIndex = -4` over the
three example certificates, discharging the membership hypothesis at the
header pair the call produces. -/
theorem claim_C7_cert_index_resolution_witness :
    ("k", "c2") ∈ ([] : List (String × String)) ∨ ("k", "c2").2 ≠ "" :=
  claim_C7_cert_index_resolution.2.2
    ⟨-4, "subject", "CommonName", "k"⟩ "k" (some exCertsC7) []
    ("k", "c2") (by decide)

/-- Reading back the key just assigned in a Go map returns the assigned
value. -/
theorem mapGet_mapSet_self {β : Type} (m : List (String × β)) (k : String)
    (v : β) : mapGet (mapSet m k v) k = some v := by
  induction m with
  | nil => simp [mapSet, mapGet]
  | cons kv rest ih =>
    obtain ⟨k0, v0⟩ := kv
    by_cases h : k0 = k
    · subst h
      simp [mapSet, mapGet]
    · simp [mapSet, mapGet, h, ih]

/-- Assigning one key of a Go map leaves every other key unchanged. -/
theorem mapGet_mapSet_ne {β : Type} (m : List (String × β)) (k k' : String)
    (v : β) (h : k' ≠ k) : mapGet (mapSet m k v) k' = mapGet m k' := by
  have h' : ¬k = k' := fun he => h he.symm
  induction m with
  | nil => simp [mapSet, mapGet, h']
  | cons kv rest ih =>
    obtain ⟨k0, v0⟩ := kv
    by_cases hk : k0 = k
    · subst hk
      simp [mapSet, mapGet, h']
    · by_cases hk' : k0 = k'
      · simp [mapSet, mapGet, hk, hk', h]
      · simp [mapSet, mapGet, hk, hk', ih]

/-- A sequence of Go map assignments whose keys avoid `k` does not change
the value at `k`. -/
theorem mapGet_foldl_not_mem {β : Type} (kvs : List (String × β))
    (k : String) :
    k ∉ kvs.map Prod.fst →
    ∀ (hs : List (String × β)),
      mapGet (kvs.foldl (fun a kv => mapSet a kv.1 kv.2) hs) k = mapGet hs k := by
  induction kvs with
  | nil =>
    intro _ hs
    rfl
  | cons kv rest ih =>
    intro h hs
    simp only [List.map_cons, List.mem_cons, not_or] at h
    simp only [List.foldl_cons]
    rw [ih h.2]
    exact mapGet_mapSet_ne hs kv.1 k kv.2 h.1

/-- After a sequence of Go map assignments with pairwise-distinct keys,
each assigned key reads back its assigned value. -/
theorem mapGet_foldl_mem {β : Type} (kvs : List (String × β))
    (k : String) (v : β) :
    (kvs.map Prod.fst).Nodup →
    (k, v) ∈ kvs →
    ∀ (hs : List (String × β)),
      mapGet (kvs.foldl (fun a kv => mapSet a kv.1 kv.2) hs) k = some v := by
  induction kvs with
  | nil =>
    intro _ hmem
    cases hmem
  | cons kv rest ih =>
    obtain ⟨k0, v0⟩ := kv
    intro hnd hmem hs
    simp only [List.map_cons, List.nodup_cons] at hnd
    simp only [List.foldl_cons]
    rcases List.mem_cons.mp hmem with h | h
    · injection h with h1 h2
      subst h1
      subst h2
      rw [mapGet_foldl_not_mem rest k hnd.1, mapGet_mapSet_self]
    · exact ih hnd.2 h _

/-- The mock-header loop of `Fallback.Fallback` only rewrites the header
map of the response record. -/
theorem fallback.foldl_headers (kvs : List (String × String)) :
    ∀ (w : fallback.FResponse),
      kvs.foldl
          (fun acc kv => { acc with headers := mapSet acc.headers kv.1 kv.2 }) w
        = { w with
            headers := kvs.foldl (fun hs kv => mapSet hs kv.1 kv.2) w.headers } := by
  induction kvs with
  | nil =>
    intro w
    rfl
  | cons kv rest ih =>
    intro w
    simp only [List.foldl_cons]
    rw [ih]

/-- C9 counterexample: the claim requires the final content-length header
to equal the precomputed mock body length **and** every configured mock
header to keep its configured value.  `Fallback.Fallback` sets the
content-length first and the mock headers afterwards, so configuring the
mock header `Content-Length: 999` with the 3-byte body `"abc"` leaves
the response's content-length at `"999"`, not at the precomputed
`"3"`. -/
theorem claim_C9_counterexample :
    (fallback.New ⟨200, [("Content-Length", "999")], "abc"⟩).bodyLength = "3"
      ∧ mapGet ((fallback.New ⟨200, [("Content-Length", "999")], "abc"⟩).fallback
            ⟨0, [], ""⟩).headers "Content-Length"
          = some "999"
      ∧ ("999" : String) ≠ "3" := by
  refine ⟨by decide, by decide, by decide⟩

/-- C9 (amended): `Fallback.Fallback` sets the response status code to
the mock code, replaces the payload with the mock body, gives every
configured mock header its configured value, and sets the content-length
header to the precomputed mock body length **before** the mock headers
are applied — so the precomputed value is what remains exactly when no
mock header is itself named `Content-Length`. -/
theorem claim_C9_fallback_sets_mock_response
    (spec : fallback.Spec) (w : fallback.FResponse)
    (hnd : (spec.mockHeaders.map Prod.fst).Nodup) :
    ((fallback.New spec).fallback w).statusCode = spec.mockCode
      ∧ ((fallback.New spec).fallback w).payload = (fallback.New spec).mockBody
      ∧ (∀ kv ∈ spec.mockHeaders,
          mapGet ((fallback.New spec).fallback w).headers kv.1 = some kv.2)
      ∧ (fallback.KeyContentLength ∉ spec.mockHeaders.map Prod.fst →
          mapGet ((fallback.New spec).fallback w).headers fallback.KeyContentLength
            = some (fallback.New spec).bodyLength) := by
  have hfb : (fallback.New spec).fallback w
      = { statusCode := spec.mockCode
          headers := spec.mockHeaders.foldl (fun hs kv => mapSet hs kv.1 kv.2)
            (mapSet w.headers fallback.KeyContentLength
              (fallback.New spec).bodyLength)
          payload := spec.mockBody } := by
    simp only [fallback.Fallback.fallback, fallback.foldl_headers, fallback.New]
  rw [hfb]
  refine ⟨rfl, rfl, ?_, ?_⟩
  · intro kv hkv
    exact mapGet_foldl_mem spec.mockHeaders kv.1 kv.2 hnd hkv _
  · intro hnmem
    rw [mapGet_foldl_not_mem spec.mockHeaders _ hnmem, mapGet_mapSet_self]

/-- C9 witness: the amended theorem applied to a concrete fallback spec
(mock code 503, one mock header, body `"hi"`) and an initial empty
response. -/
theorem claim_C9_fallback_sets_mock_response_witness :
    ((fallback.New ⟨503, [("X-Mock", "yes")], "hi"⟩).fallback
          ⟨0, [], ""⟩).statusCode = 503
      ∧ ((fallback.New ⟨503, [("X-Mock", "yes")], "hi"⟩).fallback
          ⟨0, [], ""⟩).payload = "hi"
      ∧ (∀ kv ∈ [("X-Mock", "yes")],
          mapGet ((fallback.New ⟨503, [("X-Mock", "yes")], "hi"⟩).fallback
              ⟨0, [], ""⟩).headers kv.1 = some kv.2)
      ∧ (fallback.KeyContentLength ∉ ["X-Mock"] →
          mapGet ((fallback.New ⟨503, [("X-Mock", "yes")], "hi"⟩).fallback
              ⟨0, [], ""⟩).headers fallback.KeyContentLength = some "2") :=
  claim_C9_fallback_sets_mock_response ⟨503, [("X-Mock", "yes")], "hi"⟩
    ⟨0, [], ""⟩ (by decide)

/-- A slot the collection loop reads without failing: empty slots,
bodyless responses, and bodies `copyHTTPBody2Map` accepts. -/
def apiaggregator.slotReadOk (maxBodyBytes : Int) :
    Option apiaggregator.SubResponse → Bool
  | none => true
  | some rsp =>
    match rsp.body with
    | none => true
    | some b => (apiaggregator.copyHTTPBody2Map maxBodyBytes b).isNone

/-- A slot whose collected body the JSON layer decodes as an object
(trivially true for empty or bodyless slots, which contribute no
entry). -/
def apiaggregator.slotDecodes
    (unmarshal : List Nat → Option apiaggregator.JObj) :
    Option apiaggregator.SubResponse → Bool
  | none => true
  | some rsp =>
    match rsp.body with
    | none => true
    | some b => (unmarshal b.content).isSome

/-- Membership after a Go map assignment: an entry of `mapSet m k v` was
already in `m` or is the new binding. -/
theorem mem_mapSet {β : Type} :
    ∀ (m : List (String × β)) (k : String) (v : β) (kv : String × β),
      kv ∈ mapSet m k v → kv ∈ m ∨ kv = (k, v) := by
  intro m
  induction m with
  | nil =>
    intro k v kv h
    simp only [mapSet, List.mem_singleton] at h
    exact Or.inr h
  | cons p rest ih =>
    intro k v kv h
    obtain ⟨k0, v0⟩ := p
    by_cases hk : k0 = k
    · subst hk
      simp only [mapSet, if_pos rfl] at h
      rcases List.mem_cons.mp h with h' | h'
      · exact Or.inr h'
      · exact Or.inl (List.mem_cons_of_mem _ h')
    · simp only [mapSet, if_neg hk] at h
      rcases List.mem_cons.mp h with h' | h'
      · exact Or.inl (h' ▸ List.mem_cons_self _ _)
      · rcases ih k v kv h' with h'' | h''
        · exact Or.inl (List.mem_cons_of_mem _ h'')
        · exact Or.inr h''

/-- When partial success is off, the collection loop fails with 503 and
the `failed-in-<name>` header at the first empty slot, provided the
filled slots before it read cleanly. -/
theorem apiaggregator.collectLoop_error_503 (spec : apiaggregator.Spec)
    (hps : spec.partialSucceed = false) :
    ∀ (pre : List (String × Option apiaggregator.SubResponse))
      (name : String) (rest : List (String × Option apiaggregator.SubResponse))
      (data : apiaggregator.GoMap),
      (∀ p ∈ pre, p.2 ≠ none
        ∧ apiaggregator.slotReadOk spec.maxBodyBytes p.2 = true) →
      apiaggregator.collectLoop spec (pre ++ (name, none) :: rest) data
        = .error ⟨503, some ("failed-in-" ++ name)⟩ := by
  intro pre
  induction pre with
  | nil =>
    intro name rest data _
    simp [apiaggregator.collectLoop, hps]
  | cons p pre' ih =>
    intro name rest data hall
    obtain ⟨nm, slot⟩ := p
    have hp := hall (nm, slot) (List.mem_cons_self _ _)
    have hall' : ∀ q ∈ pre', q.2 ≠ none
        ∧ apiaggregator.slotReadOk spec.maxBodyBytes q.2 = true :=
      fun q hq => hall q (List.mem_cons_of_mem _ hq)
    cases slot with
    | none => exact absurd rfl hp.1
    | some rsp =>
      cases hb : rsp.body with
      | none =>
        simp only [List.cons_append, apiaggregator.collectLoop, hb]
        exact ih name rest data hall'
      | some b =>
        have hro := hp.2
        simp only [apiaggregator.slotReadOk, hb, Option.isNone_iff_eq_none] at hro
        simp only [List.cons_append, apiaggregator.collectLoop, hb, hro]
        exact ih name rest (mapSet data nm b.content) hall'

/-- When partial success is on and every slot reads cleanly, the
collection loop succeeds, and each collected entry either predates the
loop or carries the body bytes of some filled slot. -/
theorem apiaggregator.collectLoop_ok (spec : apiaggregator.Spec)
    (hps : spec.partialSucceed = true) :
    ∀ (l : List (String × Option apiaggregator.SubResponse))
      (data : apiaggregator.GoMap),
      (∀ p ∈ l, apiaggregator.slotReadOk spec.maxBodyBytes p.2 = true) →
      ∃ out, apiaggregator.collectLoop spec l data = .ok out
        ∧ ∀ kv ∈ out, kv ∈ data
            ∨ ∃ rsp b, (kv.1, some rsp) ∈ l ∧ rsp.body = some b
                ∧ kv.2 = b.content := by
  intro l
  induction l with
  | nil =>
    intro data _
    exact ⟨data, rfl, fun kv hkv => Or.inl hkv⟩
  | cons p rest ih =>
    intro data hall
    obtain ⟨nm, slot⟩ := p
    have hall' : ∀ q ∈ rest,
        apiaggregator.slotReadOk spec.maxBodyBytes q.2 = true :=
      fun q hq => hall q (List.mem_cons_of_mem _ hq)
    have lift : ∀ (out : apiaggregator.GoMap),
        (∀ kv ∈ out, kv ∈ data
          ∨ ∃ rsp b, (kv.1, some rsp) ∈ rest ∧ rsp.body = some b
              ∧ kv.2 = b.content) →
        ∀ kv ∈ out, kv ∈ data
          ∨ ∃ rsp b, (kv.1, some rsp) ∈ (nm, slot) :: rest
              ∧ rsp.body = some b ∧ kv.2 = b.content := by
      intro out hout kv hkv
      rcases hout kv hkv with h | ⟨rsp, b, hmem, hb, hc⟩
      · exact Or.inl h
      · exact Or.inr ⟨rsp, b, List.mem_cons_of_mem _ hmem, hb, hc⟩
    cases slot with
    | none =>
      simp only [apiaggregator.collectLoop, hps]
      obtain ⟨out, hout, hprov⟩ := ih data hall'
      exact ⟨out, hout, lift out hprov⟩
    | some rsp =>
      cases hb : rsp.body with
      | none =>
        simp only [apiaggregator.collectLoop, hb]
        obtain ⟨out, hout, hprov⟩ := ih data hall'
        exact ⟨out, hout, lift out hprov⟩
      | some b =>
        have hro := hall (nm, some rsp) (List.mem_cons_self _ _)
        simp only [apiaggregator.slotReadOk, hb, Option.isNone_iff_eq_none] at hro
        simp only [apiaggregator.collectLoop, hb, hro]
        obtain ⟨out, hout, hprov⟩ :=
          ih (mapSet data nm b.content) hall'
        refine ⟨out, hout, fun kv hkv => ?_⟩
        rcases hprov kv hkv with h | ⟨rsp', b', hmem, hb', hc⟩
        · rcases mem_mapSet data nm b.content kv h with h' | h'
          · exact Or.inl h'
          · refine Or.inr ⟨rsp, b, ?_, hb, by rw [h']⟩
            rw [h']
            exact List.mem_cons_self _ _
        · exact Or.inr ⟨rsp', b', List.mem_cons_of_mem _ hmem, hb', hc⟩

/-- The merge-mode loop succeeds when every collected body decodes. -/
theorem apiaggregator.mergeLoop_isSome
    (unmarshal : List Nat → Option apiaggregator.JObj) :
    ∀ (entries : List (String × List Nat)) (acc : apiaggregator.JObj),
      (∀ kv ∈ entries, (unmarshal kv.2).isSome = true) →
      (apiaggregator.mergeLoop unmarshal entries acc).isSome = true := by
  intro entries
  induction entries with
  | nil =>
    intro acc _
    rfl
  | cons e rest ih =>
    intro acc hall
    obtain ⟨nm, bs⟩ := e
    rcases Option.isSome_iff_exists.mp (hall (nm, bs) (List.mem_cons_self _ _))
      with ⟨pairs, hp⟩
    simp only [apiaggregator.mergeLoop, hp]
    exact ih _ (fun kv hkv => hall kv (List.mem_cons_of_mem _ hkv))

/-- The array-mode loop succeeds when every collected body decodes. -/
theorem apiaggregator.arrayLoop_isSome
    (unmarshal : List Nat → Option apiaggregator.JObj) :
    ∀ (entries : List (String × List Nat)),
      (∀ kv ∈ entries, (unmarshal kv.2).isSome = true) →
      (apiaggregator.arrayLoop unmarshal entries).isSome = true := by
  intro entries
  induction entries with
  | nil =>
    intro _
    rfl
  | cons e rest ih =>
    intro hall
    obtain ⟨nm, bs⟩ := e
    rcases Option.isSome_iff_exists.mp (hall (nm, bs) (List.mem_cons_self _ _))
      with ⟨pairs, hp⟩
    rcases Option.isSome_iff_exists.mp
        (ih (fun kv hkv => hall kv (List.mem_cons_of_mem _ hkv)))
      with ⟨l, hl⟩
    simp only [apiaggregator.arrayLoop, hp, hl, Option.map_some']
    rfl

/-- `formatResponse` returns the success result when every collected body
decodes. -/
theorem apiaggregator.formatResponse_result_empty (mr : Bool)
    (unmarshal : List Nat → Option apiaggregator.JObj)
    (entries : List (String × List Nat))
    (hall : ∀ kv ∈ entries, (unmarshal kv.2).isSome = true) :
    (apiaggregator.formatResponse mr unmarshal entries).result = "" := by
  unfold apiaggregator.formatResponse
  cases mr with
  | true =>
    rcases Option.isSome_iff_exists.mp
        (apiaggregator.mergeLoop_isSome unmarshal entries [] hall) with ⟨o, ho⟩
    simp [ho]
  | false =>
    rcases Option.isSome_iff_exists.mp
        (apiaggregator.arrayLoop_isSome unmarshal entries hall) with ⟨l, hl⟩
    simp [hl]

/-- C4 counterexample, refuting both halves of the claim as stated.
First half (`partialSucceed = false`): the claim promises 503 with the
`X-EG-Aggregator` header whenever a slot is empty, but when a filled
slot **earlier in declaration order** holds a 200 body of exactly
`maxBodyBytes` bytes, the collection loop aborts at that slot with 500
(the `copyHTTPBody2Map` missing `+1`) and never reaches the empty slot:
no 503, no header.  Second half (`partialSucceed = true`): the claim
promises the success result whenever every non-empty slot decodes as a
JSON object, but the same exactly-`maxBodyBytes` body — a valid JSON
object — fails its read, so `Handle` returns the failed result with
500. -/
theorem claim_C4_counterexample :
    apiaggregator.Handle
        { maxBodyBytes := 5
          partialSucceed := false
          mergeResponse := false
          pipelines := [{ name := "a" }, { name := "b" }] }
        ⟨[], .eof⟩
        (fun _ name => if name = "a"
          then .ran ⟨200, some ⟨[1, 2, 3, 4, 5], .eof⟩⟩ else .notFound)
        (fun bs => if bs = [1, 2, 3, 4, 5] then some [("y", 2)] else none)
        id
      = ⟨"failed", some 500, none, .unchanged⟩
      ∧ (fun bs => if bs = [1, 2, 3, 4, 5]
          then some [("y", 2)] else none : List Nat → Option apiaggregator.JObj)
          [1, 2, 3, 4, 5] = some [("y", 2)]
      ∧ apiaggregator.Handle
          { maxBodyBytes := 5
            partialSucceed := true
            mergeResponse := false
            pipelines := [{ name := "a" }, { name := "b" }] }
          ⟨[], .eof⟩
          (fun _ name => if name = "a" then .notFound
            else .ran ⟨200, some ⟨[1, 2, 3, 4, 5], .eof⟩⟩)
          (fun bs => if bs = [1, 2, 3, 4, 5] then some [("y", 2)] else none)
          id
        = ⟨"failed", some 500, none, .unchanged⟩ := by
  refine ⟨by decide, by decide, by decide⟩

/-- C4 (amended): when `partialSucceed` is off and every filled slot
before the first empty one reads successfully (body shorter than
`maxBodyBytes` with a clean EOF — otherwise the aggregation already
fails with that slot's read error, see the counterexample), the first
empty slot makes `Handle` return the failed result with status 503 and
the `X-EG-Aggregator: failed-in-<name>` header for that sub-target,
leaving the payload unchanged; when `partialSucceed` is on, `Handle`
returns the success result provided every slot's body is read
successfully and decodes as a JSON object; and every entry of a
successfully collected data map stems from a filled slot — empty slots
are omitted from the output. -/
theorem claim_C4_partial_succeed_semantics :
    (∀ (spec : apiaggregator.Spec) (reqBody : ByteStream)
        (run : Nat → String → apiaggregator.PipelineRun)
        (unmarshal : List Nat → Option apiaggregator.JObj)
        (iter : apiaggregator.GoMap → apiaggregator.GoMap)
        (pre : List (String × Option apiaggregator.SubResponse))
        (name : String)
        (rest : List (String × Option apiaggregator.SubResponse)),
        spec.partialSucceed = false →
        apiaggregator.inboundRead spec.maxBodyBytes reqBody = none →
        List.zip (spec.pipelines.map (·.name)) (apiaggregator.handleSlots spec run)
          = pre ++ (name, none) :: rest →
        (∀ p ∈ pre, p.2 ≠ none
          ∧ apiaggregator.slotReadOk spec.maxBodyBytes p.2 = true) →
        apiaggregator.Handle spec reqBody run unmarshal iter
          = ⟨"failed", some 503, some ("failed-in-" ++ name), .unchanged⟩)
      ∧ (∀ (spec : apiaggregator.Spec) (reqBody : ByteStream)
          (run : Nat → String → apiaggregator.PipelineRun)
          (unmarshal : List Nat → Option apiaggregator.JObj)
          (iter : apiaggregator.GoMap → apiaggregator.GoMap),
          spec.partialSucceed = true →
          apiaggregator.inboundRead spec.maxBodyBytes reqBody = none →
          (∀ s ∈ apiaggregator.handleSlots spec run,
            apiaggregator.slotReadOk spec.maxBodyBytes s = true) →
          (∀ s ∈ apiaggregator.handleSlots spec run,
            apiaggregator.slotDecodes unmarshal s = true) →
          (∀ m : apiaggregator.GoMap, List.Perm (iter m) m) →
          (apiaggregator.Handle spec reqBody run unmarshal iter).result = "")
      ∧ (∀ (spec : apiaggregator.Spec)
          (l : List (String × Option apiaggregator.SubResponse)),
          ∀ (data out : apiaggregator.GoMap),
          apiaggregator.collectLoop spec l data = .ok out →
          ∀ kv ∈ out, kv ∈ data
            ∨ ∃ rsp : apiaggregator.SubResponse, (kv.1, some rsp) ∈ l) := by
  refine ⟨?_, ?_, ?_⟩
  · intro spec reqBody run unmarshal iter pre name rest hps hinb hzip hall
    simp only [apiaggregator.Handle, hinb]
    rw [hzip, apiaggregator.collectLoop_error_503 spec hps pre name rest [] hall]
  · intro spec reqBody run unmarshal iter hps hinb hread hdec hiter
    have hzipread : ∀ p ∈ List.zip (spec.pipelines.map (·.name))
        (apiaggregator.handleSlots spec run),
        apiaggregator.slotReadOk spec.maxBodyBytes p.2 = true := by
      intro p hp
      obtain ⟨a, s⟩ := p
      exact hread s (List.of_mem_zip hp).2
    obtain ⟨out, hout, hprov⟩ :=
      apiaggregator.collectLoop_ok spec hps
        (List.zip (spec.pipelines.map (·.name)) (apiaggregator.handleSlots spec run))
        [] hzipread
    simp only [apiaggregator.Handle, hinb, hout]
    apply apiaggregator.formatResponse_result_empty
    intro kv hkv
    have hkv' : kv ∈ out := (hiter out).subset hkv
    rcases hprov kv hkv' with h | ⟨rsp, b, hmem, hb, hc⟩
    · cases h
    · have hs : some rsp ∈ apiaggregator.handleSlots spec run :=
        (List.of_mem_zip hmem).2
      have hd := hdec (some rsp) hs
      simp only [apiaggregator.slotDecodes, hb] at hd
      rw [hc]
      exact hd
  · intro spec l
    induction l with
    | nil =>
      intro data out h kv hkv
      injection h with h'
      subst h'
      exact Or.inl hkv
    | cons p rest ih =>
      intro data out h kv hkv
      obtain ⟨nm, slot⟩ := p
      cases slot with
      | none =>
        simp only [apiaggregator.collectLoop] at h
        cases hps : spec.partialSucceed with
        | false =>
          rw [hps] at h
          simp at h
        | true =>
          rw [hps] at h
          simp only [Bool.not_true, Bool.false_eq_true, if_false] at h
          rcases ih data out h kv hkv with h' | ⟨rsp, hmem⟩
          · exact Or.inl h'
          · exact Or.inr ⟨rsp, List.mem_cons_of_mem _ hmem⟩
      | some rsp =>
        cases hb : rsp.body with
        | none =>
          simp only [apiaggregator.collectLoop, hb] at h
          rcases ih data out h kv hkv with h' | ⟨rsp', hmem⟩
          · exact Or.inl h'
          · exact Or.inr ⟨rsp', List.mem_cons_of_mem _ hmem⟩
        | some b =>
          simp only [apiaggregator.collectLoop, hb] at h
          cases hcp : apiaggregator.copyHTTPBody2Map spec.maxBodyBytes b with
          | some status =>
            rw [hcp] at h
            simp at h
          | none =>
            rw [hcp] at h
            rcases ih (mapSet data nm b.content) out h kv hkv
              with h' | ⟨rsp', hmem⟩
            · rcases mem_mapSet data nm b.content kv h' with h'' | h''
              · exact Or.inl h''
              · refine Or.inr ⟨rsp, ?_⟩
                rw [h'']
                exact List.mem_cons_self _ _
            · exact Or.inr ⟨rsp', List.mem_cons_of_mem _ hmem⟩

/-- C4 witness: the amended theorem applied to two concrete
aggregations — one with `partialSucceed = false` and an empty second
slot (yielding the 503 failure with the `failed-in-b` header), one with
`partialSucceed = true`, an empty first slot and one cleanly decoding
slot (yielding success). -/
theorem claim_C4_partial_succeed_semantics_witness :
    apiaggregator.Handle
        { maxBodyBytes := 10
          partialSucceed := false
          mergeResponse := false
          pipelines := [{ name := "a" }, { name := "b" }] }
        ⟨[], .eof⟩
        (fun _ name => if name = "a" then .ran ⟨200, some ⟨[1], .eof⟩⟩
          else .notFound)
        (fun _ => none) id
      = ⟨"failed", some 503, some ("failed-in-" ++ "b"), .unchanged⟩
      ∧ (apiaggregator.Handle
          { maxBodyBytes := 10
            partialSucceed := true
            mergeResponse := false
            pipelines := [{ name := "a" }, { name := "b" }] }
          ⟨[], .eof⟩
          (fun _ name => if name = "a" then .notFound
            else .ran ⟨200, some ⟨[2], .eof⟩⟩)
          (fun bs => if bs = [2] then some [("y", 2)] else none)
          id).result = "" :=
  ⟨claim_C4_partial_succeed_semantics.1 _ _ _ _ _
      [("a", some ⟨200, some ⟨[1], .eof⟩⟩)] "b" [] rfl (by decide) (by decide)
      (by decide),
    claim_C4_partial_succeed_semantics.2.1 _ _ _ _ _ rfl (by decide)
      (by decide) (by decide) (fun m => List.Perm.refl m)⟩

/-- A response body shorter than `maxBodyBytes` ending in a clean EOF is
read successfully by `copyHTTPBody2Map`. -/
theorem apiaggregator.copyHTTPBody2Map_eq_none (max : Int) (b : ByteStream)
    (hlen : (b.content.length : Int) < max) (ht : b.term = .eof) :
    apiaggregator.copyHTTPBody2Map max b = none := by
  have h0 : ¬max ≤ 0 := by
    have := Int.natCast_nonneg b.content.length
    omega
  have h1 : ¬(b.content.length : Int) ≥ max := not_le.mpr hlen
  simp only [apiaggregator.copyHTTPBody2Map, copyN, if_neg h0, if_neg h1, ht]
  rw [if_neg (not_lt.mpr (le_of_lt hlen))]
  simp

/-- An empty inbound body with a clean EOF passes step 1 of `Handle` for
every `maxBodyBytes`. -/
theorem apiaggregator.inboundRead_empty (max : Int) :
    apiaggregator.inboundRead max ⟨[], .eof⟩ = none := by
  unfold apiaggregator.inboundRead copyN
  by_cases h : max > 0
  · rw [if_pos h]
    have h1 : ¬max + 1 ≤ 0 := by omega
    have h2 : ¬((([] : List Nat).length : Int) ≥ max + 1) := by
      simp only [List.length_nil, Nat.cast_zero]
      omega
    rw [if_neg h1, if_neg h2]
    have h3 : ¬((([] : List Nat).length : Int) > max) := by
      simp only [List.length_nil, Nat.cast_zero]
      omega
    rw [if_neg h3]
    simp
  · rw [if_neg h]

/-- C10: collected bodies are keyed by sub-target name in the `data` Go
map, so two sub-targets sharing the same name overwrite each other: with
the spec listing the same name twice and both sub-calls succeeding with
status 200, only the second (later-stored) body survives, and the
array-mode output has exactly one element — the one decoded from the
second body. -/
theorem claim_C10_duplicate_names_overwrite
    (nm : String) (max : Int) (ps : Bool) (b1 b2 : List Nat)
    (o2 : apiaggregator.JObj)
    (unmarshal : List Nat → Option apiaggregator.JObj)
    (iter : apiaggregator.GoMap → apiaggregator.GoMap)
    (hb1 : (b1.length : Int) < max)
    (hb2 : (b2.length : Int) < max)
    (hu2 : unmarshal b2 = some o2)
    (hiter : ∀ m, List.Perm (iter m) m) :
    apiaggregator.Handle
        { maxBodyBytes := max
          partialSucceed := ps
          mergeResponse := false
          pipelines := [{ name := nm }, { name := nm }] }
        ⟨[], .eof⟩
        (fun i _ => if i = 0 then .ran ⟨200, some ⟨b1, .eof⟩⟩
          else .ran ⟨200, some ⟨b2, .eof⟩⟩)
        unmarshal iter
      = ⟨"", none, none, .arrOut [apiaggregator.goMapOf o2]⟩ := by
  have hslots : apiaggregator.handleSlots
      { maxBodyBytes := max
        partialSucceed := ps
        mergeResponse := false
        pipelines := [{ name := nm }, { name := nm }] }
      (fun i _ => if i = 0 then .ran ⟨200, some ⟨b1, .eof⟩⟩
        else .ran ⟨200, some ⟨b2, .eof⟩⟩)
      = [some ⟨200, some ⟨b1, .eof⟩⟩, some ⟨200, some ⟨b2, .eof⟩⟩] := by
    simp [apiaggregator.handleSlots, apiaggregator.workerSlot, List.enum,
      List.enumFrom]
  simp only [apiaggregator.Handle, apiaggregator.inboundRead_empty, hslots]
  have hc1 := apiaggregator.copyHTTPBody2Map_eq_none max ⟨b1, .eof⟩ hb1 rfl
  have hc2 := apiaggregator.copyHTTPBody2Map_eq_none max ⟨b2, .eof⟩ hb2 rfl
  simp only [List.map_cons, List.map_nil, List.zip_cons_cons, List.zip_nil_right,
    apiaggregator.collectLoop, hc1, hc2, mapSet, if_pos rfl, ite_true]
  rw [List.perm_singleton.mp (hiter [(nm, b2)])]
  simp only [apiaggregator.formatResponse, apiaggregator.arrayLoop, hu2,
    Bool.false_eq_true, if_false, Option.map_some']

/-- C10 witness: the theorem applied to two sub-targets both named
`"a"`, with bodies `[1]` and `[2]`, the identity map enumeration, and a
decoder mapping `[2]` to the object `{"y": 2}`: the output array holds
exactly the object decoded from the second body. -/
theorem claim_C10_duplicate_names_overwrite_witness :
    apiaggregator.Handle
        { maxBodyBytes := 10
          partialSucceed := false
          mergeResponse := false
          pipelines := [{ name := "a" }, { name := "a" }] }
        ⟨[], .eof⟩
        (fun i _ => if i = 0 then .ran ⟨200, some ⟨[1], .eof⟩⟩
          else .ran ⟨200, some ⟨[2], .eof⟩⟩)
        (fun bs => if bs = [2] then some [("y", 2)] else none)
        id
      = ⟨"", none, none, .arrOut [apiaggregator.goMapOf [("y", 2)]]⟩ :=
  claim_C10_duplicate_names_overwrite "a" 10 false [1] [2] [("y", 2)]
    (fun bs => if bs = [2] then some [("y", 2)] else none) id
    (by decide) (by decide) (by decide) (fun m => List.Perm.refl m)
